import Mathlib

/-!
Shallow embedding of the luxor rich-text styling engine
(crates/luxor/src/{color,style,segment,text,markup,ansi}.rs).

Rust strings are modelled as `List Char` (a Rust `String` is a sequence of
Unicode scalar values; `.chars()` iterates them).  Rust `String::len`
returns the UTF-8 byte count and is modelled by `utf8Len` below.
Rust `u8` values are modelled as `Nat`; every arithmetic operation that the
embedded code performs on them is overflow-free (checked in comments at the
definition site), so `Nat` arithmetic agrees with `u8` arithmetic there.
Error messages are carried as Lean `String`s.
-/

namespace Luxor

/-- UTF-8 size in bytes of one Unicode scalar value (RFC 3629). -/
def charUtf8Size (c : Char) : Nat :=
  if c.toNat < 0x80 then 1
  else if c.toNat < 0x800 then 2
  else if c.toNat < 0x10000 then 3
  else 4

/-- Rust `str::len` / `String::len`: the UTF-8 byte count of the string. -/
def utf8Len (l : List Char) : Nat :=
  l.foldr (fun c n => charUtf8Size c + n) 0

/-- Rust `Option::or`: returns the first option if it is `Some`, otherwise the second. -/
def rust_or {α : Type} (a b : Option α) : Option α :=
  match a with
  | some x => some x
  | none => b

theorem rust_or_assoc {α : Type} (a b c : Option α) :
    rust_or (rust_or a b) c = rust_or a (rust_or b c) := by
  cases a <;> cases b <;> rfl

theorem rust_or_none {α : Type} (a : Option α) : rust_or a none = a := by
  cases a <;> rfl

theorem rust_none_or {α : Type} (a : Option α) : rust_or none a = a := rfl

/-- `StandardColor` (color.rs): the 16 standard terminal colors. -/
inductive StandardColor where
  | Black | Red | Green | Yellow | Blue | Magenta | Cyan | White
  | BrightBlack | BrightRed | BrightGreen | BrightYellow
  | BrightBlue | BrightMagenta | BrightCyan | BrightWhite
  deriving DecidableEq, Repr

/-- RGB color tuple (color.rs `type Rgb = (u8, u8, u8)`). -/
abbrev Rgb : Type := Nat × Nat × Nat

/-- `StandardColor::to_rgb` (color.rs): fixed historical RGB table. -/
def StandardColor.to_rgb : StandardColor → Rgb
  | .Black => (0, 0, 0)
  | .Red => (128, 0, 0)
  | .Green => (0, 128, 0)
  | .Yellow => (128, 128, 0)
  | .Blue => (0, 0, 128)
  | .Magenta => (128, 0, 128)
  | .Cyan => (0, 128, 128)
  | .White => (192, 192, 192)
  | .BrightBlack => (128, 128, 128)
  | .BrightRed => (255, 0, 0)
  | .BrightGreen => (0, 255, 0)
  | .BrightYellow => (255, 255, 0)
  | .BrightBlue => (0, 0, 255)
  | .BrightMagenta => (255, 0, 255)
  | .BrightCyan => (0, 255, 255)
  | .BrightWhite => (255, 255, 255)

/-- `standard_from_index` (color.rs): convert an index (0-15) to a standard color.
The Rust function has an unreachable panic arm for indices above 15;
inputs are always below 16 at every call site, and the model returns
`BrightWhite` outside that range. -/
def standard_from_index (index : Nat) : StandardColor :=
  if index = 0 then .Black
  else if index = 1 then .Red
  else if index = 2 then .Green
  else if index = 3 then .Yellow
  else if index = 4 then .Blue
  else if index = 5 then .Magenta
  else if index = 6 then .Cyan
  else if index = 7 then .White
  else if index = 8 then .BrightBlack
  else if index = 9 then .BrightRed
  else if index = 10 then .BrightGreen
  else if index = 11 then .BrightYellow
  else if index = 12 then .BrightBlue
  else if index = 13 then .BrightMagenta
  else if index = 14 then .BrightCyan
  else .BrightWhite

/-- `eight_bit_to_rgb` (color.rs): convert an 8-bit palette index to RGB.
The three Rust match arms `0..=15`, `16..=231`, `232..=255` are modelled by
the if-chain; the argument is a `u8`, i.e. below 256.  All `u8` arithmetic
is overflow-free: in the cube the channel is at most `55 + 5 * 40 = 255`,
and in the grayscale ramp at most `8 + 23 * 10 = 238`. -/
def eight_bit_to_rgb (index : Nat) : Rgb :=
  if index ≤ 15 then (standard_from_index index).to_rgb
  else if index ≤ 231 then
    let i := index - 16
    let r := i / 36
    let g := (i % 36) / 6
    let b := i % 6
    ((if r = 0 then 0 else 55 + r * 40),
     (if g = 0 then 0 else 55 + g * 40),
     (if b = 0 then 0 else 55 + b * 40))
  else
    let gray := 8 + (index - 232) * 10
    (gray, gray, gray)

/-- `Color` (color.rs): color representation in four fidelity tiers.
`EightBit` carries a `u8` palette index and `TrueColor` three `u8` channels,
modelled as `Nat`. -/
inductive Color where
  | Default : Color
  | Standard : StandardColor → Color
  | EightBit : Nat → Color
  | TrueColor : Nat → Nat → Nat → Color
  deriving DecidableEq, Repr

/-- `Color::rgb` (color.rs). -/
def Color.rgb (r g b : Nat) : Color := Color.TrueColor r g b

/-- `Style` (style.rs): ten independent optional attributes. -/
structure Style where
  color : Option Color
  background : Option Color
  bold : Option Bool
  italic : Option Bool
  underline : Option Bool
  strikethrough : Option Bool
  dim : Option Bool
  reverse : Option Bool
  blink : Option Bool
  hidden : Option Bool
  deriving DecidableEq, Repr

/-- `Style::new` (style.rs): the empty style, all fields `None`. -/
def Style.new : Style :=
  { color := none, background := none, bold := none, italic := none,
    underline := none, strikethrough := none, dim := none, reverse := none,
    blink := none, hidden := none }

instance : Inhabited Style := ⟨Style.new⟩

/-- `Style::default` = `Style::new` (style.rs `impl Default`). -/
def Style.default : Style := Style.new

/-- `Style::combine` (style.rs): for every field, `other`'s value wins when
it is `Some`, otherwise `self`'s value is kept (`other.field.or(self.field)`). -/
def Style.combine (self other : Style) : Style :=
  { color := rust_or other.color self.color,
    background := rust_or other.background self.background,
    bold := rust_or other.bold self.bold,
    italic := rust_or other.italic self.italic,
    underline := rust_or other.underline self.underline,
    strikethrough := rust_or other.strikethrough self.strikethrough,
    dim := rust_or other.dim self.dim,
    reverse := rust_or other.reverse self.reverse,
    blink := rust_or other.blink self.blink,
    hidden := rust_or other.hidden self.hidden }

/-- `LuxorError` (error.rs).  Only the variants constructible by the embedded
core are modelled (the `Io` variant wraps a `std::io::Error` and is never
produced by the styling engine). -/
inductive LuxorError where
  | Unicode : String → LuxorError
  | Rendering : String → LuxorError
  | Style : String → LuxorError
  | Color : String → LuxorError
  | Measurement : String → LuxorError
  | Terminal : String → LuxorError
  | MarkupError : String → LuxorError
  | InvalidRange : String → LuxorError
  deriving DecidableEq, Repr

/-- `ControlCode` (segment.rs). -/
inductive ControlCode where
  | Bell | CarriageReturn | Home | Clear | ShowCursor | HideCursor
  | EnableAltScreen | DisableAltScreen
  | CursorUp : Nat → ControlCode
  | CursorDown : Nat → ControlCode
  | CursorForward : Nat → ControlCode
  | CursorBackward : Nat → ControlCode
  | CursorMoveToColumn : Nat → ControlCode
  | CursorMoveTo : Nat → Nat → ControlCode
  deriving DecidableEq, Repr

/-- `Segment` (segment.rs): text, style and optional control code. -/
structure Segment where
  text : List Char
  style : Style
  control : Option ControlCode
  deriving DecidableEq, Repr

/-- `Segment::new` (segment.rs): a text segment, `control: None`. -/
def Segment.new (text : List Char) (style : Style) : Segment :=
  { text := text, style := style, control := none }

/-- `Span` (markup.rs): half-open range with a style.  The source field
`end` is a Lean keyword and is rendered here as `stop`. -/
structure Span where
  start : Nat
  stop : Nat
  style : Style
  deriving DecidableEq, Repr

/-- `Span::new` (markup.rs). -/
def Span.new (start stop : Nat) (style : Style) : Span :=
  { start := start, stop := stop, style := style }

/-- `Span::is_empty` (markup.rs): `end <= start`. -/
def Span.is_empty (s : Span) : Bool := s.stop ≤ s.start

/-- `Text` (text.rs): plain content, base style and style spans. -/
structure Text where
  content : List Char
  base_style : Style
  spans : List Span
  deriving DecidableEq, Repr

/-- `Text::new` (text.rs). -/
def Text.new (content : List Char) : Text :=
  { content := content, base_style := Style.default, spans := [] }

/-- `Text::with_style` (text.rs). -/
def Text.with_style (t : Text) (style : Style) : Text :=
  { t with base_style := style }

/-- `Text::plain` (text.rs). -/
def Text.plain (t : Text) : List Char := t.content

/-- `Text::len` (text.rs): length in characters (`content.chars().count()`). -/
def Text.len (t : Text) : Nat := t.content.length

/-- Rust's `sort_by_key` is a stable sort; stable sorting is modelled by
Mathlib's insertion sort (`orderedInsert` places an earlier element before
the later elements whose keys are not smaller, which keeps the original
order of equal keys, as Rust's stable merge sort does). -/
def stableSortByKey {α : Type} (key : α → Nat) (l : List α) : List α :=
  List.insertionSort (fun a b => key a ≤ key b) l

/-- `Text::append` (text.rs): `self.content.push_str(text)`; spans untouched. -/
def Text.append (t : Text) (text : List Char) : Text :=
  { t with content := t.content ++ text }

/-- `Text::stylize_range` (text.rs).  The Rust method takes `&mut self`
and returns `Result<()>`; this is modelled by returning the result paired
with the new state of the text. -/
def Text.stylize_range (t : Text) (start stop : Nat) (style : Style) :
    Except LuxorError Unit × Text :=
  if start > stop then
    (Except.error (LuxorError.InvalidRange
      (s!"Start index {start} is greater than end index {stop}")), t)
  else if stop > t.len then
    (Except.error (LuxorError.InvalidRange
      (s!"End index {stop} is out of bounds for text of length {t.len}")), t)
  else
    let span := Span.new start stop style
    (Except.ok (),
     { t with spans := stableSortByKey (fun s => s.start) (t.spans ++ [span]) })

/-- `Text::get_char_slice` (text.rs): `content.chars().skip(start).take(end - start)`. -/
def Text.get_char_slice (t : Text) (start stop : Nat) : List Char :=
  (t.content.drop start).take (stop - start)

/-- `Text::compute_style_for_spans` (text.rs): base style combined with each
active span's style in activation order. -/
def Text.compute_style_for_spans (t : Text) (spans : List Span) : Style :=
  spans.foldl (fun style span => style.combine span.style) t.base_style

/-- Sweep event `(position, is_start, span)` from `Text::to_segments`. -/
structure Event where
  pos : Nat
  is_start : Bool
  span : Span
  deriving DecidableEq, Repr

/-- Events of one span: a start event and an end event (text.rs). -/
def Text.mkEvents (spans : List Span) : List Event :=
  spans.foldr (fun span acc =>
    { pos := span.start, is_start := true, span := span } ::
    { pos := span.stop, is_start := false, span := span } :: acc) []

/-- The sort key `(position, is_start)` of `events.sort_by_key`, with
`false < true`, encoded as the order-isomorphic natural `2 * pos + bit`. -/
def Event.key (e : Event) : Nat := 2 * e.pos + (if e.is_start then 1 else 0)

/-- The sweep loop of `Text::to_segments` (text.rs): walk the sorted events,
emitting a segment for the slice between the previous boundary and the event
position (when non-empty), and maintaining the active-span vector
(`push` on start, `retain(|s| s != &span)` on end).  After the last event a
trailing segment covers any remaining content. -/
def Text.sweep (t : Text) : List Event → Nat → List Span → List Segment
  | [], current_position, active_spans =>
    if current_position < t.len then
      let text_slice := t.get_char_slice current_position t.len
      let style := t.compute_style_for_spans active_spans
      if text_slice ≠ [] then [Segment.new text_slice style] else []
    else []
  | e :: rest, current_position, active_spans =>
    let active' := if e.is_start then active_spans ++ [e.span]
                   else active_spans.filter (fun s => s ≠ e.span)
    if e.pos > current_position then
      let text_slice := t.get_char_slice current_position e.pos
      let style := t.compute_style_for_spans active_spans
      (if text_slice ≠ [] then [Segment.new text_slice style] else []) ++
        t.sweep rest e.pos active'
    else
      t.sweep rest current_position active'

/-- `Text::to_segments` (text.rs). -/
def Text.to_segments (t : Text) : List Segment :=
  if t.content = [] then
    [Segment.new [] t.base_style]
  else if t.spans = [] then
    [Segment.new t.content t.base_style]
  else
    t.sweep (stableSortByKey Event.key (Text.mkEvents t.spans)) 0 []

/-- Rust `char::is_whitespace` / the `White_Space` property (used by
`str::trim` and `str::split_whitespace`). -/
def is_rust_whitespace (c : Char) : Bool :=
  let n := c.toNat
  (9 ≤ n && n ≤ 13) || n = 32 || n = 0x85 || n = 0xA0 || n = 0x1680 ||
  (0x2000 ≤ n && n ≤ 0x200A) || n = 0x2028 || n = 0x2029 ||
  n = 0x202F || n = 0x205F || n = 0x3000

/-- Rust `str::trim`: remove whitespace from both ends. -/
def rust_trim (l : List Char) : List Char :=
  ((l.dropWhile is_rust_whitespace).reverse.dropWhile is_rust_whitespace).reverse

/-- Rust `str::split_whitespace`: split on whitespace runs, no empty pieces. -/
def split_whitespace (l : List Char) : List (List Char) :=
  (l.splitOnP (fun c => is_rust_whitespace c)).filter (fun p => p ≠ [])

/-- Rust `str::to_lowercase`.  Lean's `Char.toLower` lowers only ASCII
letters; Rust lowers full Unicode.  The two agree on ASCII input, and every
keyword the embedded code compares against is ASCII. -/
def to_lowercase (l : List Char) : List Char := l.map Char.toLower

/-- `Tag` (markup.rs): a markup tag with optional parameters. -/
structure Tag where
  name : List Char
  parameters : Option (List Char)
  deriving DecidableEq, Repr

/-- `Tag::new` (markup.rs). -/
def Tag.new (name : List Char) : Tag := { name := name, parameters := none }

/-- `Tag::with_parameters` (markup.rs). -/
def Tag.with_parameters (name parameters : List Char) : Tag :=
  { name := name, parameters := some parameters }

/-- `Tag::is_closing` (markup.rs): the name starts with `/`. -/
def Tag.is_closing (t : Tag) : Bool :=
  match t.name with
  | '/' :: _ => true
  | _ => false

/-- `Tag::closing_name` (markup.rs): the name without the leading `/`
(`&self.name[1..]`, a one-byte slice since `/` is ASCII). -/
def Tag.closing_name (t : Tag) : List Char :=
  if t.is_closing then t.name.tail else t.name

/-- `Token` (markup.rs): plain text or a tag. -/
inductive Token where
  | Text : List Char → Token
  | Tag : Tag → Token
  deriving DecidableEq, Repr

/-- `content.find('=')` followed by the two slices `content[..pos]` and
`content[pos+1..]` of `parse_tag`: split at the first `=`, if any. -/
def splitFirstEq : List Char → Option (List Char × List Char)
  | [] => none
  | c :: rest =>
    if c = '=' then some ([], rest)
    else (splitFirstEq rest).map (fun p => (c :: p.1, p.2))

/-- `parse_tag` (markup.rs).  The Rust function returns `Result` but both of
its branches return `Ok`, so it is modelled as total. -/
def parse_tag (content : List Char) : Tag :=
  match splitFirstEq content with
  | some (before, after) => Tag.with_parameters (rust_trim before) (rust_trim after)
  | none => Tag.new (rust_trim content)

/-- Flush of the pending plain text (`if pos > current_pos` in parse_tokens:
the slice `markup[current_pos..pos]` is pushed exactly when non-empty). -/
def flushText (pending : List Char) : List Token :=
  if pending = [] then [] else [Token.Text pending]

/-- Tokenizer mode of `parse_tokens`: scanning plain text (with the pending
unflushed slice), or inside an unclosed `[` (with the tag content read so
far; the pending slice is kept because the source flushes it only when the
closing `]` is found). -/
inductive TkMode where
  | normal : List Char → TkMode
  | inTag : List Char → List Char → TkMode
  deriving DecidableEq, Repr

/-- The scanning loop of `parse_tokens` (markup.rs), one character at a time:
* `[[` flushes pending text and emits a literal `[`;
* `[` enters tag mode (the inner `for` loop searching for `]`);
* in tag mode, `]` flushes pending text, emits a tag token when the tag
  content is non-empty, and returns to normal mode;
* end of input in tag mode is an unterminated bracket: the source resets
  `current_pos` to the position of the `[` and the final flush emits
  `markup[current_pos..]`, i.e. the bracket run itself — the pending text
  that preceded the `[` is discarded;
* end of input in normal mode flushes the pending text. -/
def tkGo : List Char → TkMode → List Token
  | [], .normal pending => flushText pending
  | [], .inTag _pending acc => [Token.Text ('[' :: acc)]
  | '[' :: '[' :: rest2, .normal pending =>
    flushText pending ++ Token.Text ['['] :: tkGo rest2 (.normal [])
  | '[' :: rest, .normal pending => tkGo rest (.inTag pending [])
  | c :: rest, .normal pending => tkGo rest (.normal (pending ++ [c]))
  | ']' :: rest, .inTag pending acc =>
    flushText pending ++
      (if acc = [] then [] else [Token.Tag (parse_tag acc)]) ++
      tkGo rest (.normal [])
  | c :: rest, .inTag pending acc => tkGo rest (.inTag pending (acc ++ [c]))

/-- `parse_tokens` (markup.rs).  The Rust function returns `Result` but can
never construct an error (`parse_tag` is total), so it is modelled as total. -/
def parse_tokens (markup : List Char) : List Token :=
  tkGo markup (.normal [])

/-- Value of one hexadecimal digit, as in `u8::from_str_radix(_, 16)`. -/
def hex_digit_val (c : Char) : Option Nat :=
  let n := c.toNat
  if 48 ≤ n && n ≤ 57 then some (n - 48)
  else if 97 ≤ n && n ≤ 102 then some (n - 87)
  else if 65 ≤ n && n ≤ 70 then some (n - 55)
  else none

/-- `u8::from_str_radix(s, 16)` for a two-digit string.  All uses in
`from_hex` pass exactly two digits, so the result is at most 255 and the
`u8` cannot overflow. -/
def from_str_radix2 (c1 c2 : Char) : Option Nat := do
  let a ← hex_digit_val c1
  let b ← hex_digit_val c2
  pure (a * 16 + b)

/-- `Color::from_hex` (color.rs).  `trim_start_matches('#')` removes every
leading `#`; the length match is on the UTF-8 byte length and the digit
slices are byte slices.  On ASCII input byte and character positions
coincide; on non-ASCII input of byte length 3 or 6 the Rust code panics on a
non-boundary slice — such inputs are outside the modelled domain and the
model reads the digits character-wise there. -/
def Color.from_hex (hex : List Char) : Except LuxorError Color :=
  let h := hex.dropWhile (fun c => c = '#')
  if utf8Len h = 3 then
    match h with
    | [c1, c2, c3] =>
      match from_str_radix2 c1 c1, from_str_radix2 c2 c2, from_str_radix2 c3 c3 with
      | some r, some g, some b => Except.ok (Color.rgb r g b)
      | _, _, _ => Except.error (LuxorError.Color ("Invalid hex digit"))
    | _ => Except.error (LuxorError.Color ("Invalid hex digit"))
  else if utf8Len h = 6 then
    match h with
    | [c1, c2, c3, c4, c5, c6] =>
      match from_str_radix2 c1 c2, from_str_radix2 c3 c4, from_str_radix2 c5 c6 with
      | some r, some g, some b => Except.ok (Color.rgb r g b)
      | _, _, _ => Except.error (LuxorError.Color ("Invalid hex digit"))
    | _ => Except.error (LuxorError.Color ("Invalid hex digit"))
  else
    Except.error (LuxorError.Color ("Hex color must be 3 or 6 characters long"))

/-- `parse_color_token` (style.rs): named standard colors, else hex when the
token starts with `#` or has byte length 3 or 6. -/
def parse_color_token (token : List Char) : Except LuxorError Color :=
  let low := to_lowercase token
  if low = ("black").toList then Except.ok (Color.Standard .Black)
  else if low = ("red").toList then Except.ok (Color.Standard .Red)
  else if low = ("green").toList then Except.ok (Color.Standard .Green)
  else if low = ("yellow").toList then Except.ok (Color.Standard .Yellow)
  else if low = ("blue").toList then Except.ok (Color.Standard .Blue)
  else if low = ("magenta").toList then Except.ok (Color.Standard .Magenta)
  else if low = ("cyan").toList then Except.ok (Color.Standard .Cyan)
  else if low = ("white").toList then Except.ok (Color.Standard .White)
  else if low = ("bright_black").toList || low = ("gray").toList
      || low = ("grey").toList then Except.ok (Color.Standard .BrightBlack)
  else if low = ("bright_red").toList then Except.ok (Color.Standard .BrightRed)
  else if low = ("bright_green").toList then Except.ok (Color.Standard .BrightGreen)
  else if low = ("bright_yellow").toList then Except.ok (Color.Standard .BrightYellow)
  else if low = ("bright_blue").toList then Except.ok (Color.Standard .BrightBlue)
  else if low = ("bright_magenta").toList then Except.ok (Color.Standard .BrightMagenta)
  else if low = ("bright_cyan").toList then Except.ok (Color.Standard .BrightCyan)
  else if low = ("bright_white").toList then Except.ok (Color.Standard .BrightWhite)
  else if token.head? = some '#' || utf8Len token = 3 || utf8Len token = 6 then
    Color.from_hex token
  else
    Except.error (LuxorError.Color (s!"Unknown color: {String.mk token}"))

/-- The token loop of `Style::parse` (style.rs). -/
def parseStyleTokens : List (List Char) → Style → Except LuxorError Style
  | [], style => Except.ok style
  | token :: rest, style =>
    let low := to_lowercase token
    if low = ("bold").toList then
      parseStyleTokens rest { style with bold := some true }
    else if low = ("italic").toList then
      parseStyleTokens rest { style with italic := some true }
    else if low = ("underline").toList then
      parseStyleTokens rest { style with underline := some true }
    else if low = ("strikethrough").toList then
      parseStyleTokens rest { style with strikethrough := some true }
    else if low = ("dim").toList then
      parseStyleTokens rest { style with dim := some true }
    else if low = ("reverse").toList then
      parseStyleTokens rest { style with reverse := some true }
    else if low = ("blink").toList then
      parseStyleTokens rest { style with blink := some true }
    else if low = ("hidden").toList then
      parseStyleTokens rest { style with hidden := some true }
    else if low = ("on").toList then
      match rest with
      | bg_token :: rest2 =>
        match parse_color_token bg_token with
        | Except.ok c => parseStyleTokens rest2 { style with background := some c }
        | Except.error e => Except.error e
      | [] => Except.error (LuxorError.Style ("Expected color after on"))
    else
      match parse_color_token low with
      | Except.ok color =>
        if style.color = none then
          parseStyleTokens rest { style with color := some color }
        else
          parseStyleTokens rest style
      | Except.error _ =>
        Except.error (LuxorError.Style (s!"Unknown style token: {String.mk low}"))

/-- `Style::parse` (style.rs). -/
def Style.parse (style_str : List Char) : Except LuxorError Style :=
  parseStyleTokens (split_whitespace style_str) Style.new

/-- `StyleStackEntry` (markup.rs): `(start_position, Tag, Style)`. -/
structure StyleStackEntry where
  start_pos : Nat
  tag : Tag
  style : Style
  deriving DecidableEq, Repr

/-- The mutable state of the token loop of `render` (markup.rs): the text
built so far, the emitted spans, and the open-tag stack (a `VecDeque` used
with `push_back`/`pop_back`: the back is the end of the list). -/
structure RState where
  text_content : List Char
  spans : List Span
  style_stack : List StyleStackEntry
  deriving DecidableEq, Repr

/-- The search `style_stack.iter().enumerate().rev().find(...)` of `render`:
index of the LAST stack entry whose tag name equals `style_name`. -/
def find_match_rev (style_name : List Char) : List StyleStackEntry → Option Nat
  | [] => none
  | e :: rest =>
    match find_match_rev style_name rest with
    | some i => some (i + 1)
    | none => if e.tag.name = style_name then some 0 else none

/-- The body of `render`'s token loop (markup.rs): append text; on a closing
tag pop one entry (`[/]`) or every entry from the nearest matching entry to
the top (`[/name]`, `drain(index..)`), turning each popped entry into a span
ending at the current text position (`text_content.len()`, a byte count);
error when a named close matches nothing; on an opening tag parse the style
and push.  -/
def processToken (st : RState) : Token → Except LuxorError RState
  | Token.Text text =>
    Except.ok { st with text_content := st.text_content ++ text }
  | Token.Tag tag =>
    if tag.is_closing then
      let style_name := tag.closing_name
      if style_name = [] then
        match st.style_stack.getLast? with
        | some e =>
          Except.ok { st with
            spans := st.spans ++
              [Span.new e.start_pos (utf8Len st.text_content) e.style],
            style_stack := st.style_stack.dropLast }
        | none => Except.ok st
      else
        match find_match_rev style_name st.style_stack with
        | some index =>
          Except.ok { st with
            spans := st.spans ++ (st.style_stack.drop index).map
              (fun e => Span.new e.start_pos (utf8Len st.text_content) e.style),
            style_stack := st.style_stack.take index }
        | none =>
          Except.error (LuxorError.MarkupError
            (s!"Closing tag {String.mk tag.name} has no matching opening tag"))
    else
      match Style.parse tag.name with
      | Except.ok style =>
        Except.ok { st with style_stack :=
          st.style_stack ++ [⟨utf8Len st.text_content, tag, style⟩] }
      | Except.error e => Except.error e

/-- The token loop of `render` (markup.rs), with `?`-propagation. -/
def renderTokens : List Token → RState → Except LuxorError RState
  | [], st => Except.ok st
  | tok :: rest, st =>
    match processToken st tok with
    | Except.ok st2 => renderTokens rest st2
    | Except.error e => Except.error e

/-- The span-application loop at the end of `render` (markup.rs):
non-empty spans are fed to `stylize_range`, whose error propagates. -/
def applySpans : Text → List Span → Except LuxorError Text
  | t, [] => Except.ok t
  | t, span :: rest =>
    if span.is_empty then applySpans t rest
    else
      match t.stylize_range span.start span.stop span.style with
      | (Except.ok _, t2) => applySpans t2 rest
      | (Except.error e, _) => Except.error e

/-- `render` (markup.rs): parse markup and build a `Text`.  Tags still open
at the end of input are auto-closed in `pop_back` order (back to front). -/
def render (markup : List Char) (base_style : Option Style) : Except LuxorError Text :=
  if ¬ markup.contains '[' then
    Except.ok ((Text.new markup).with_style (base_style.getD Style.default))
  else
    match renderTokens (parse_tokens markup) ⟨[], [], []⟩ with
    | Except.error e => Except.error e
    | Except.ok st =>
      let final_len := utf8Len st.text_content
      let spans := st.spans ++ st.style_stack.reverse.map
        (fun e => Span.new e.start_pos final_len e.style)
      let text := Text.new st.text_content
      let text := match base_style with
        | some base => text.with_style base
        | none => text
      applySpans text spans

/-- `Text::from_markup` (text.rs): `markup::render(markup, None)`. -/
def Text.from_markup (markup : List Char) : Except LuxorError Text :=
  render markup none

/-- Rust `char::is_ascii_alphabetic`. -/
def is_ascii_alphabetic (c : Char) : Bool :=
  (65 ≤ c.toNat && c.toNat ≤ 90) || (97 ≤ c.toNat && c.toNat ≤ 122)

/-- The loop of `strip_ansi` (ansi.rs).  The Boolean is true while the inner
`for` loop of the source is skipping a CSI sequence:
* outside a sequence, `ESC` followed by `[` enters skip mode and both
  characters are discarded; any other character (including a lone `ESC`)
  is pushed to the result;
* in skip mode an ASCII alphabetic terminator ends the sequence (discarded);
  an `ESC` is pushed to the result (`result.push(ch)`) and the inner loop
  breaks, so scanning resumes in normal mode on the following character;
  anything else is discarded. -/
def stripGo : List Char → Bool → List Char
  | [], _ => []
  | '\x1b' :: '[' :: rest2, false => stripGo rest2 true
  | c :: rest, false => c :: stripGo rest false
  | c :: rest, true =>
    if is_ascii_alphabetic c then stripGo rest false
    else if c = '\x1b' then c :: stripGo rest false
    else stripGo rest true

/-- `strip_ansi` (ansi.rs): remove ANSI escape sequences from a string. -/
def strip_ansi (text : List Char) : List Char :=
  stripGo text false

/-- C3: `strip_ansi` is NOT idempotent.  On the input `"\x1b[\x1b[m"`
(back-to-back ESC characters inside an unterminated sequence) one strip
yields `"\x1b[m"`, which a second strip recognises as a complete sequence
and removes entirely. -/
theorem c3_strip_ansi_not_idempotent :
    strip_ansi ['\x1b', '[', '\x1b', '[', 'm'] = ['\x1b', '[', 'm'] ∧
    strip_ansi (strip_ansi ['\x1b', '[', '\x1b', '[', 'm']) = [] ∧
    strip_ansi (strip_ansi ['\x1b', '[', '\x1b', '[', 'm']) ≠
      strip_ansi ['\x1b', '[', '\x1b', '[', 'm'] := by
  decide

/-- The sweep loop emits exactly the characters of the content from the
current position onward: the emitted slices telescope. -/
theorem sweep_flatten (t : Text) (events : List Event) (cur : Nat) (active : List Span) :
    ((t.sweep events cur active).map Segment.text).flatten = t.content.drop cur := by
  induction events generalizing cur active with
  | nil =>
    simp only [Text.sweep]
    by_cases h : cur < t.len
    · have hlen : (t.content.drop cur).length = t.len - cur := by
        simp [Text.len]
      have hslice : t.get_char_slice cur t.len = t.content.drop cur := by
        unfold Text.get_char_slice
        exact List.take_of_length_le (le_of_eq hlen)
      have hne : t.content.drop cur ≠ [] := by
        rw [Ne, List.drop_eq_nil_iff]
        simp only [Text.len] at h
        omega
      rw [if_pos h, hslice, if_pos hne]
      simp [Segment.new]
    · rw [if_neg h]
      have : t.content.drop cur = [] := by
        rw [List.drop_eq_nil_iff]
        simp only [Text.len] at h
        omega
      simp [this]
  | cons e rest ih =>
    simp only [Text.sweep]
    by_cases hpos : e.pos > cur
    · rw [if_pos hpos, List.map_append, List.flatten_append, ih]
      have hdrop : t.content.drop e.pos = (t.content.drop cur).drop (e.pos - cur) := by
        rw [List.drop_drop]
        congr 1
        omega
      by_cases hsl : t.get_char_slice cur e.pos ≠ []
      · rw [if_pos hsl]
        have key : t.get_char_slice cur e.pos ++ t.content.drop e.pos = t.content.drop cur := by
          unfold Text.get_char_slice
          rw [hdrop, List.take_append_drop]
        simpa [Segment.new] using key
      · rw [if_neg hsl]
        push_neg at hsl
        have hnil : t.content.drop cur = [] := by
          unfold Text.get_char_slice at hsl
          rcases List.take_eq_nil_iff.mp hsl with h0 | h0
        -- the slice width e.pos - cur is positive, so the dropped tail is empty
          · omega
          · exact h0
        rw [hdrop, hnil]
        simp
    · rw [if_neg hpos]
      exact ih cur _

/-- C1: for every Text (any content, base style and span list), concatenating
the `text` fields of the segments returned by `to_segments`, in order, equals
`plain()` exactly. -/
theorem c1_round_trip (t : Text) :
    ((t.to_segments).map Segment.text).flatten = t.plain := by
  unfold Text.to_segments Text.plain
  by_cases h1 : t.content = []
  · rw [if_pos h1]
    simp [Segment.new, h1]
  · rw [if_neg h1]
    by_cases h2 : t.spans = []
    · rw [if_pos h2]
      simp [Segment.new]
    · rw [if_neg h2]
      simpa using sweep_flatten t (stableSortByKey Event.key (Text.mkEvents t.spans)) 0 []

/-- Every segment emitted by the sweep loop has non-empty text and no
control code (emission is guarded by `!text_slice.is_empty()` and uses
`Segment::new`). -/
theorem sweep_segments_text (t : Text) (events : List Event) (cur : Nat) (active : List Span) :
    ∀ s ∈ t.sweep events cur active, s.text ≠ [] ∧ s.control = none := by
  induction events generalizing cur active with
  | nil =>
    intro s hs
    simp only [Text.sweep] at hs
    split at hs
    · split at hs
      · next hne =>
          rcases List.mem_singleton.mp hs with rfl
          exact ⟨hne, rfl⟩
      · cases hs
    · cases hs
  | cons e rest ih =>
    intro s hs
    simp only [Text.sweep] at hs
    split at hs
    · rcases List.mem_append.mp hs with hmem | hmem
      · split at hmem
        · next hne =>
            rcases List.mem_singleton.mp hmem with rfl
            exact ⟨hne, rfl⟩
        · cases hmem
      · exact ih _ _ s hmem
    · exact ih _ _ s hs

/-- C5 counterexample: the empty Text yields a segment whose text is empty
and whose control code is `None`, so a segment that is neither a text
segment nor a control segment is produced. -/
theorem c5_counterexample :
    ∃ s ∈ (Text.new []).to_segments, s.text = [] ∧ s.control = none := by
  refine ⟨Segment.new [] Style.default, ?_, rfl, rfl⟩
  decide

/-- C5 (amended): for every Text whose content is non-empty, every segment
produced by `to_segments` is a text segment: non-empty text and no control
code.  (The empty Text instead yields exactly one segment with empty text
and no control code.) -/
theorem c5_text_segments (t : Text) (h : t.content ≠ []) :
    ∀ s ∈ t.to_segments, s.text ≠ [] ∧ s.control = none := by
  intro s hs
  unfold Text.to_segments at hs
  rw [if_neg h] at hs
  by_cases h2 : t.spans = []
  · rw [if_pos h2] at hs
    rcases List.mem_singleton.mp hs with rfl
    exact ⟨h, rfl⟩
  · rw [if_neg h2] at hs
    exact sweep_segments_text t _ 0 [] s hs

/-- C5 witness: the amended theorem applied to the concrete one-character
text, at its unique segment. -/
theorem c5_text_segments_witness :
    (Text.new ['a']).content ≠ [] ∧
      ((Segment.new ['a'] Style.default).text ≠ [] ∧
        (Segment.new ['a'] Style.default).control = none) :=
  ⟨by decide, c5_text_segments (Text.new ['a']) (by decide)
    (Segment.new ['a'] Style.default) (by decide)⟩

/-- C6: `stylize_range` fails with `InvalidRange` exactly when `start > end`
or `end > char_count`, and whenever it fails the text is left unchanged. -/
theorem c6_stylize_range (t : Text) (start stop : Nat) (style : Style) :
    ((∃ msg, (t.stylize_range start stop style).1 =
        Except.error (LuxorError.InvalidRange msg)) ↔
      (start > stop ∨ stop > t.len)) ∧
    (∀ e, (t.stylize_range start stop style).1 = Except.error e →
      (t.stylize_range start stop style).2 = t) := by
  unfold Text.stylize_range
  split_ifs with h1 h2
  · exact ⟨⟨fun _ => Or.inl h1, fun _ => ⟨_, rfl⟩⟩, fun _ _ => rfl⟩
  · exact ⟨⟨fun _ => Or.inr h2, fun _ => ⟨_, rfl⟩⟩, fun _ _ => rfl⟩
  · refine ⟨⟨?_, ?_⟩, ?_⟩
    · rintro ⟨msg, hmsg⟩
      exact absurd hmsg (by simp)
    · rintro (h | h)
      · exact absurd h h1
      · exact absurd h h2
    · intro e he
      exact absurd he (by simp)

/-- C6 witness: the frame part of the theorem at a concrete invalid call
(`start > end` on a one-character text): the text is unchanged. -/
theorem c6_stylize_range_witness :
    ((Text.new ['a']).stylize_range 5 2 Style.new).2 = Text.new ['a'] :=
  (c6_stylize_range (Text.new ['a']) 5 2 Style.new).2
    (LuxorError.InvalidRange (s!"Start index 5 is greater than end index 2"))
    (by rfl)

/-- C7: `Style::combine` is associative and the empty style (all ten fields
`None`) is a two-sided identity. -/
theorem c7_combine_monoid (a b c s : Style) :
    (a.combine b).combine c = a.combine (b.combine c) ∧
    s.combine Style.new = s ∧ Style.new.combine s = s := by
  refine ⟨?_, ?_, ?_⟩
  · simp [Style.combine, Style.mk.injEq, rust_or_assoc]
  · simp [Style.combine, Style.new, rust_none_or]
  · simp [Style.combine, Style.new, rust_or_none]

/-- C9: `eight_bit_to_rgb` follows the documented palette formula: for
`16 ≤ i ≤ 231` the base-6 digits of `i - 16` are the cube axes with channel
`0 ↦ 0` and `v ↦ 55 + 40*v` otherwise; for `232 ≤ i ≤ 255` all three
channels are `8 + 10*(i - 232)`. -/
theorem c9_palette (i : Nat) (h : i < 256) :
    (16 ≤ i ∧ i ≤ 231 →
      eight_bit_to_rgb i =
        ((if (i - 16) / 36 = 0 then 0 else 55 + 40 * ((i - 16) / 36)),
         (if (i - 16) / 6 % 6 = 0 then 0 else 55 + 40 * ((i - 16) / 6 % 6)),
         (if (i - 16) % 6 = 0 then 0 else 55 + 40 * ((i - 16) % 6)))) ∧
    (232 ≤ i ∧ i ≤ 255 →
      eight_bit_to_rgb i =
        (8 + 10 * (i - 232), 8 + 10 * (i - 232), 8 + 10 * (i - 232))) := by
  revert h
  revert i
  set_option maxRecDepth 4096 in decide

/-- C9 witness: the palette formula at the concrete indices 100 (cube) and
240 (grayscale ramp). -/
theorem c9_palette_witness :
    eight_bit_to_rgb 100 = (135, 135, 0) ∧ eight_bit_to_rgb 240 = (88, 88, 88) := by
  have h1 := (c9_palette 100 (by decide)).1 (by decide)
  have h2 := (c9_palette 240 (by decide)).2 (by decide)
  exact ⟨by simpa using h1, by simpa using h2⟩

/-- The reverse search returns `none` exactly when no stack entry matches. -/
theorem find_match_rev_none_iff (name : List Char) (stack : List StyleStackEntry) :
    find_match_rev name stack = none ↔ ∀ e ∈ stack, e.tag.name ≠ name := by
  induction stack with
  | nil => simp [find_match_rev]
  | cons e rest ih =>
    simp only [find_match_rev]
    cases hfr : find_match_rev name rest with
    | some i =>
      simp only [reduceCtorEq, false_iff]
      push_neg
      have : ¬ ∀ e ∈ rest, e.tag.name ≠ name := by
        rw [← ih]
        simp [hfr]
      push_neg at this
      obtain ⟨x, hx, hxn⟩ := this
      exact ⟨x, List.mem_cons_of_mem _ hx, hxn⟩
    | none =>
      have hrest : ∀ x ∈ rest, x.tag.name ≠ name := ih.mp hfr
      by_cases he : e.tag.name = name
      · simp only [if_pos he, reduceCtorEq, false_iff]
        push_neg
        exact ⟨e, List.mem_cons_self e rest, by simp [he]⟩
      · simp only [if_neg he, true_iff]
        intro x hx
        rcases List.mem_cons.mp hx with rfl | hx
        · exact he
        · exact hrest x hx

/-- The reverse search returns the greatest matching index: the entry at the
returned index matches, and no entry above it does. -/
theorem find_match_rev_some (name : List Char) (stack : List StyleStackEntry) (i : Nat)
    (h : find_match_rev name stack = some i) :
    ∃ hi : i < stack.length,
      (stack.get ⟨i, hi⟩).tag.name = name ∧
      ∀ j, ∀ hj : j < stack.length, i < j → (stack.get ⟨j, hj⟩).tag.name ≠ name := by
  induction stack generalizing i with
  | nil => simp [find_match_rev] at h
  | cons e rest ih =>
    simp only [find_match_rev] at h
    cases hfr : find_match_rev name rest with
    | some k =>
      rw [hfr] at h
      obtain rfl : k + 1 = i := by simpa using h
      obtain ⟨hk, hmatch, hmax⟩ := ih k hfr
      refine ⟨by simpa using Nat.succ_lt_succ hk, by simpa using hmatch, ?_⟩
      intro j hj hlt
      cases j with
      | zero => omega
      | succ j' =>
        have hj' : j' < rest.length := by simpa using hj
        simpa using hmax j' hj' (by omega)
    | none =>
      rw [hfr] at h
      by_cases he : e.tag.name = name
      · rw [if_pos he] at h
        obtain rfl : 0 = i := by simpa using h
        refine ⟨by simp, by simpa using he, ?_⟩
        intro j hj hlt
        cases j with
        | zero => omega
        | succ j' =>
          have hj' : j' < rest.length := by simpa using hj
          have := (find_match_rev_none_iff name rest).mp hfr
          simpa using this (rest.get ⟨j', hj'⟩) (rest.get_mem _ _)
      · rw [if_neg he] at h
        cases h

/-- C2: when the render loop of `from_markup` processes a named closing tag:
if some open tag on the stack has that name, every stack entry from the
nearest (topmost) such entry to the top is popped and each becomes a span
from its recorded open position to the current text position; if no open
tag has that name, processing fails with `MarkupError`. -/
theorem c2_named_close (st : RState) (tag : Tag) (name : List Char)
    (hname : tag.name = '/' :: name) (hne : name ≠ []) :
    ((∃ e ∈ st.style_stack, e.tag.name = name) →
      ∃ i, ∃ hi : i < st.style_stack.length,
        (st.style_stack.get ⟨i, hi⟩).tag.name = name ∧
        (∀ j, ∀ hj : j < st.style_stack.length, i < j →
          (st.style_stack.get ⟨j, hj⟩).tag.name ≠ name) ∧
        processToken st (Token.Tag tag) = Except.ok
          { st with
            spans := st.spans ++ (st.style_stack.drop i).map
              (fun e => Span.new e.start_pos (utf8Len st.text_content) e.style),
            style_stack := st.style_stack.take i }) ∧
    ((∀ e ∈ st.style_stack, e.tag.name ≠ name) →
      ∃ msg, processToken st (Token.Tag tag) =
        Except.error (LuxorError.MarkupError msg)) := by
  have hclosing : tag.is_closing = true := by
    simp [Tag.is_closing, hname]
  have hcname : tag.closing_name = name := by
    simp [Tag.closing_name, hclosing, hname]
  constructor
  · intro hex
    have hnn : find_match_rev name st.style_stack ≠ none := by
      rw [Ne, find_match_rev_none_iff]
      push_neg
      obtain ⟨e, he, hn⟩ := hex
      exact ⟨e, he, hn⟩
    cases hfr : find_match_rev name st.style_stack with
    | none => exact absurd hfr hnn
    | some i =>
      obtain ⟨hi, hmatch, hmax⟩ := find_match_rev_some name st.style_stack i hfr
      refine ⟨i, hi, hmatch, hmax, ?_⟩
      simp only [processToken, hclosing, if_pos, hcname, if_neg hne, hfr]
  · intro hall
    have hfr : find_match_rev name st.style_stack = none :=
      (find_match_rev_none_iff name st.style_stack).mpr hall
    refine ⟨s!"Closing tag {String.mk tag.name} has no matching opening tag", ?_⟩
    simp only [processToken, hclosing, if_pos, hcname, if_neg hne, hfr]

/-- C2 witness: on a stack holding `bold` (bottom) and `red` (top), closing
`[/bold]` succeeds, and closing `[/x]` fails, by the theorem applied at that
concrete state. -/
theorem c2_named_close_witness :
    (processToken
      ⟨['a', 'b'], [],
        [⟨0, Tag.new (("bold").toList), Style.new⟩,
         ⟨1, Tag.new (("red").toList), Style.new⟩]⟩
      (Token.Tag (Tag.new (("/bold").toList)))).isOk = true ∧
    (processToken
      ⟨['a', 'b'], [],
        [⟨0, Tag.new (("bold").toList), Style.new⟩,
         ⟨1, Tag.new (("red").toList), Style.new⟩]⟩
      (Token.Tag (Tag.new (("/x").toList)))).isOk = false := by
  constructor
  · obtain ⟨i, hi, hm, hmax, heq⟩ :=
      (c2_named_close
        ⟨['a', 'b'], [],
          [⟨0, Tag.new (("bold").toList), Style.new⟩,
           ⟨1, Tag.new (("red").toList), Style.new⟩]⟩
        (Tag.new (("/bold").toList)) (("bold").toList) rfl (by decide)).1
      ⟨⟨0, Tag.new (("bold").toList), Style.new⟩, List.mem_cons_self _ _, rfl⟩
    rw [heq]
    rfl
  · obtain ⟨msg, heq⟩ :=
      (c2_named_close
        ⟨['a', 'b'], [],
          [⟨0, Tag.new (("bold").toList), Style.new⟩,
           ⟨1, Tag.new (("red").toList), Style.new⟩]⟩
        (Tag.new (("/x").toList)) (("x").toList) rfl (by decide)).2
      (by decide)
    rw [heq]
    rfl

/-- C4: `from_markup` records span offsets as UTF-8 BYTE positions, not
character positions.  On `"áb[bold]c[/bold]d"` (the character `á` occupies
two bytes) parsing succeeds and the bold span is `3..4`, which in character
indices addresses the character `d` — the markup applied bold to `c`, which
sits at character indices `2..3`. -/
theorem c4_byte_offset_spans :
    (Text.from_markup
        ['á', 'b', '[', 'b', 'o', 'l', 'd', ']', 'c', '[', '/', 'b', 'o', 'l', 'd', ']', 'd']).map
      (fun t => (t.content, t.spans)) =
      Except.ok (['á', 'b', 'c', 'd'],
        [Span.new 3 4 { Style.new with bold := some true }]) ∧
    ['á', 'b', 'c', 'd'].get? 3 = some 'd' ∧
    ['á', 'b', 'c', 'd'].get? 2 = some 'c' := by
  refine ⟨?_, rfl, rfl⟩
  rfl

/-- C8: on `"ab[cd"` (an unterminated `[` preceded by text) `from_markup`
succeeds, but the resulting plain text is `"[cd"`: the text `"ab"` that
preceded the unterminated bracket is silently dropped, so it does NOT appear
verbatim in the result. -/
theorem c8_unterminated_drops_prefix :
    Text.from_markup ['a', 'b', '[', 'c', 'd'] =
      Except.ok (Text.new ['[', 'c', 'd']) ∧
    (Text.new ['[', 'c', 'd']).plain ≠ ['a', 'b', '[', 'c', 'd'] := by
  exact ⟨rfl, by decide⟩

/-- C10: `append` extends the content with the appended string and leaves the
span list and the base style exactly as they were. -/
theorem c10_append_frame (t : Text) (s : List Char) :
    (t.append s).content = t.content ++ s ∧
    (t.append s).spans = t.spans ∧
    (t.append s).base_style = t.base_style :=
  ⟨rfl, rfl, rfl⟩

end Luxor
